import Mathlib

/-!
Verification of the seismic convolution / forward-modelling core
(`src/convolution/mod.rs`, `src/forward_modelling/mod.rs`,
`src/wavelets/mod.rs`, `src/models/mod.rs`).

Modelling conventions:
* `f64` values are modelled as exact real numbers (`ℝ`); `usize` as `ℕ`.
* The Rust sources contain many non-compiling typos (for example the
  stray `printn!`, the missing buffer declarations in `convolve`, the
  `is`-for-`if` on the filter branch).  Where a line is not valid Rust at
  all, the embedding restores the evident intent, guided by the parallel
  text of the neighbouring functions.  Where a line IS valid Rust, its
  compiled semantics are kept even when they look like a slip.  The
  decisive instance is the loop body of `next_power_of_2`: the statement
  `power<=1;` is a legal comparison expression with no effect, so the
  `while power < n` loop never changes `power` and never terminates for
  `n ≥ 2`.  That loop is embedded with an explicit fuel parameter
  (`none` = the source loop has not terminated within `fuel` steps).
* `fastrand::f64()` draws are modelled by an injected stream
  `rng : ℕ → ℝ`; the pipeline state carries the index of the next draw.
* Wall-clock processing time and `println!` output are not modelled.
-/

namespace Seismic

/-! ### next_power_of_2 (src/convolution/mod.rs lines 119-129)

The source:
```
let mut power=1;
while power < n{
    power<=1;
}
power
```
The body `power<=1;` compares and discards the result, so each loop
iteration leaves `power` unchanged.  `next_power_of_2_loop n fuel power`
runs up to `fuel` iterations of that loop and returns `none` when the
loop is still running after `fuel` iterations. -/
def next_power_of_2_loop (n : ℕ) : ℕ → ℕ → Option ℕ
  | 0, _ => none
  | fuel + 1, power =>
      if power < n then
        -- loop body: `power<=1;` evaluates a comparison and discards it,
        -- leaving `power` unchanged
        next_power_of_2_loop n fuel power
      else
        some power

/-- Embedding of `next_power_of_2`: returns `some` result if the source
function returns within `fuel` loop iterations, `none` otherwise. -/
def next_power_of_2_fuel (fuel n : ℕ) : Option ℕ :=
  if n ≤ 1 then some 1 else next_power_of_2_loop n fuel 1


/-! ### ConvolutionEngine (src/convolution/mod.rs)

`rustfft` plans compute un-normalized transforms:
forward `X k = Σ_j x j · exp(-2πi·j·k/N)`, inverse the same with `+` in
the exponent and no `1/N` factor (which is why the source scales the
final samples by `1/fft_len`). -/

open Complex in
/-- Un-normalized forward DFT of length `n` (the `plan_fft_forward` plan
applied to a buffer of length `n`). -/
noncomputable def dft (n : ℕ) (buf : List ℂ) : List ℂ :=
  (List.range n).map fun k =>
    ∑ j ∈ Finset.range n,
      buf.getD j 0 * Complex.exp (-(2 * Real.pi * I) * j * k / n)

open Complex in
/-- Un-normalized inverse DFT of length `n` (the `plan_fft_inverse` plan:
conjugate exponent, no `1/n` scaling). -/
noncomputable def idft (n : ℕ) (buf : List ℂ) : List ℂ :=
  (List.range n).map fun k =>
    ∑ j ∈ Finset.range n,
      buf.getD j 0 * Complex.exp ((2 * Real.pi * I) * j * k / n)

/-- `prepare_fft_buffer`: copy the real samples into a complex buffer and
`resize` it to `fft_len` with zeros (`Vec::resize` truncates when the
buffer is longer, extends with the given value otherwise). -/
noncomputable def prepare_fft_buffer (signal : List ℝ) (fft_len : ℕ) : List ℂ :=
  (signal.map (fun x => (x : ℂ))).take fft_len ++
    List.replicate (fft_len - signal.length) 0

/-- Embedding of `ConvolutionEngine::convolve`.  The source text of the
body is not valid Rust (undeclared `buffer_a`/`buffer_b`, `printn!`, a
malformed closure); the embedding restores the evident intent from the
parallel, well-formed body of `cross_correlate` (forward transforms of
both padded inputs, elementwise product, inverse transform, truncate to
`output_len`, scale by `1/fft_len`).  The call to `next_power_of_2` is
embedded with fuel; `none` means the source function has not returned. -/
noncomputable def convolve_fuel (fuel : ℕ) (signal_a signal_b : List ℝ) :
    Option (List ℝ) :=
  if signal_a.isEmpty || signal_b.isEmpty then some []
  else
    let output_len := signal_a.length + signal_b.length - 1
    match next_power_of_2_fuel fuel output_len with
    | none => none
    | some fft_len =>
        let buffer_a := dft fft_len (prepare_fft_buffer signal_a fft_len)
        let buffer_b := dft fft_len (prepare_fft_buffer signal_b fft_len)
        let result_buffer := idft fft_len (List.zipWith (· * ·) buffer_a buffer_b)
        let normalization_factor := 1 / (fft_len : ℝ)
        some ((result_buffer.take output_len).map fun c =>
          c.re * normalization_factor)

/-- Embedding of `ConvolutionEngine::cross_correlate`: identical shape,
but the frequency-domain operation is `a.conj() * b`. -/
noncomputable def cross_correlate_fuel (fuel : ℕ) (signal_a signal_b : List ℝ) :
    Option (List ℝ) :=
  if signal_a.isEmpty || signal_b.isEmpty then some []
  else
    let output_len := signal_a.length + signal_b.length - 1
    match next_power_of_2_fuel fuel output_len with
    | none => none
    | some fft_len =>
        let buffer_a := dft fft_len (prepare_fft_buffer signal_a fft_len)
        let buffer_b := dft fft_len (prepare_fft_buffer signal_b fft_len)
        let result_buffer :=
          idft fft_len (List.zipWith (fun a b => (starRingEnd ℂ) a * b) buffer_a buffer_b)
        let normalization_factor := 1 / (fft_len : ℝ)
        some ((result_buffer.take output_len).map fun c =>
          c.re * normalization_factor)

/-- Embedding of `ConvolutionEngine::auto_correlate`. -/
noncomputable def auto_correlate_fuel (fuel : ℕ) (signal : List ℝ) :
    Option (List ℝ) :=
  cross_correlate_fuel fuel signal signal

/-- The direct O(n²) reference linear convolution from the claim:
`result[k] = Σ_i a[i]·b[k−i]` with out-of-range samples read as zero,
output length `len(a)+len(b)−1`. -/
def direct_convolve (a b : List ℚ) : List ℚ :=
  (List.range (a.length + b.length - 1)).map fun k =>
    ∑ i ∈ Finset.range (k + 1), a.getD i 0 * b.getD (k - i) 0


/-! ### RickerWavelet (src/wavelets/mod.rs) -/

/-- The wavelet record: dominant frequency, sample interval, samples and
paired time vector. -/
structure RickerWavelet where
  frequency : ℝ
  dt : ℝ
  samples : List ℝ
  time : List ℝ

/-- Embedding of `generate_ricker`.  The source line for the exponential
term is not valid Rust (it lacks both the semicolon and a method call);
the formula documented directly above it in the source,
`Ricker(t) = (1-2·π²·f²·t²) · exp(-π²·f²·t²)`, fixes the intent, with
`pi_f_squared = (π·f)²`. -/
noncomputable def generate_ricker (time : List ℝ) (frequency : ℝ) : List ℝ :=
  let pi_f_squared := (Real.pi * frequency) ^ 2
  time.map fun t =>
    let t_squared := t * t
    let exponential_term := Real.exp (-pi_f_squared * t_squared)
    let polynomial_term := 1 - 2 * pi_f_squared * t_squared
    polynomial_term * exponential_term

/-- Embedding of `RickerWavelet::new`.  Validation: error when
`frequency ≤ 0` or `dt ≤ 0`; no check on `length`.  The time vector is
`time[i] = (i − length/2)·dt` with `length/2` computed in floating
point (`length as f64 / 2.0`), i.e. exactly `(length : ℝ)/2` here. -/
noncomputable def RickerWavelet.new (frequency dt : ℝ) (length : ℕ) :
    Except String RickerWavelet :=
  if frequency ≤ 0 then Except.error "Frequency must be positive"
  else if dt ≤ 0 then Except.error "Sample interval must be positive"
  else
    let half_length : ℝ := (length : ℝ) / 2
    let time := (List.range length).map fun i => ((i : ℝ) - half_length) * dt
    let samples := generate_ricker time frequency
    Except.ok ⟨frequency, dt, samples, time⟩

/-! ### ReflectivityModel (src/models/mod.rs) -/

/-- The reflectivity model record.  Only `coefficients` and the
sparsity statistic are consumed by the pipeline. -/
structure ReflectivityModel where
  coefficients : List ℝ
  layer_positions : List ℕ
  reflection_coefficients : List ℝ
  length : ℕ

open Classical in
/-- Modelled from the spec: `ReflectivityModel::stats()` (the sparsity
accessor read by the pipeline) is absent from the sources — the models
module is truncated before it — and the spec defines sparsity as the
fraction of nonzero coefficients. -/
noncomputable def ReflectivityModel.sparsity (m : ReflectivityModel) : ℝ :=
  (m.coefficients.countP fun x => decide (x ≠ 0)) / m.coefficients.length

/-! ### SeismicPipeline (src/forward_modelling/mod.rs) -/

/-- Configuration parameters for the seismic pipeline. -/
structure PipelineConfig where
  add_noise : Bool
  noise_level : ℝ
  apply_filter : Bool
  low_freq : ℝ
  high_freq : ℝ
  sample_rate : ℝ

/-- `PipelineConfig::default()`. -/
noncomputable def PipelineConfig.default : PipelineConfig :=
  ⟨false, 1 / 100, false, 5, 100, 1000⟩

/-- Statistics from the forward modelling process.  The wall-clock
`processing_time_ms` field is not modelled. -/
structure ProcessingStats where
  reflectivity_sparsity : ℝ
  wavelet_dominant_freq : ℝ
  output_snr : ℝ
  convolution_length : ℕ

/-- Results from forward modelling. -/
structure ForwardModellingResults where
  synthetic_trace : List ℝ
  reflectivity : List ℝ
  wavelet : List ℝ
  time : List ℝ
  stats : ProcessingStats

/-- The pipeline state: its configuration, plus the index of the next
`fastrand::f64()` draw (the hidden global RNG is modelled as an injected
stream `rng : ℕ → ℝ` consumed in order). -/
structure SeismicPipeline where
  config : PipelineConfig
  rng_count : ℕ

/-- `estimate_signal_level`: the RMS of the trace. -/
noncomputable def estimate_signal_level (trace : List ℝ) : ℝ :=
  Real.sqrt ((trace.map fun x => x * x).sum / trace.length)

/-- `add_noise_to_trace`: per-sample uniform noise of amplitude
`noise_level × RMS(trace)`; each `fastrand::f64()` draw is `rng (k+i)`.
Returns the new trace and the next draw index. -/
noncomputable def add_noise_to_trace (cfg : PipelineConfig) (rng : ℕ → ℝ) (k : ℕ)
    (trace : List ℝ) : List ℝ × ℕ :=
  let signal_level := estimate_signal_level trace
  let noise_amplitude := cfg.noise_level * signal_level
  (trace.enum.map fun p => p.2 + noise_amplitude * (2 * rng (k + p.1) - 1),
    k + trace.length)

/-- `apply_moving_average`: sample `i` becomes the mean of the slice
`trace[i.saturating_sub(half) .. min(i+half+1, len))` of the original
trace (the source writes into a fresh `filtered` buffer and copies it
back, so every window reads unfiltered samples). -/
noncomputable def apply_moving_average (trace : List ℝ) (window_size : ℕ) : List ℝ :=
  let half_window := window_size / 2
  (List.range trace.length).map fun i =>
    let start := i - half_window
    let stop := min (i + half_window + 1) trace.length
    let window_len := stop - start
    ((trace.drop start).take window_len).sum / window_len

/-- The window size of `apply_bandpass_filter`:
`(sample_rate / (2.0*high_freq)) as usize`.  The `f64 → usize` cast
truncates toward zero and saturates at 0 for negative values, which on
rationals/reals is exactly `Int.toNat ∘ Int.floor`.  (For `high_freq = 0`
the real model gives `0/0 = 0`, window 0, hence a no-op, while Rust gets
an infinite quotient saturating to `usize::MAX`, also a no-op since
`usize::MAX < len/4` is false — the observable behaviour agrees.) -/
noncomputable def bandpass_window_size (cfg : PipelineConfig) : ℕ :=
  (⌊cfg.sample_rate / (2 * cfg.high_freq)⌋).toNat

/-- `apply_bandpass_filter`: moving-average low-pass, applied only when
`window_size > 1 && window_size < trace.len()/4` (integer division). -/
noncomputable def apply_bandpass_filter (cfg : PipelineConfig) (trace : List ℝ) :
    List ℝ :=
  let window_size := bandpass_window_size cfg
  if 1 < window_size ∧ window_size < trace.length / 4 then
    apply_moving_average trace window_size
  else trace

/-- Steps 2-5 of `run_forward_modelling` (noise, filter, time vector,
statistics), as a function of the convolution output `trace0`.  The SNR
reads the noise variance off the FINAL trace:
`noise_var = (noise_level * estimate_signal_level(&synthetic_trace))^2`
is evaluated after noise and filtering have been applied. -/
noncomputable def forward_steps (rng : ℕ → ℝ) (pl : SeismicPipeline)
    (reflectivity_model : ReflectivityModel) (wavelet : RickerWavelet)
    (trace0 : List ℝ) : ForwardModellingResults × SeismicPipeline :=
  let step2 :=
    if pl.config.add_noise then add_noise_to_trace pl.config rng pl.rng_count trace0
    else (trace0, pl.rng_count)
  let synthetic_trace :=
    if pl.config.apply_filter then apply_bandpass_filter pl.config step2.1
    else step2.1
  let dt := 1 / pl.config.sample_rate
  let time := (List.range synthetic_trace.length).map fun i => (i : ℝ) * dt
  let signal_power := (synthetic_trace.map fun x => x * x).sum
  let noise_power :=
    if pl.config.add_noise then
      (pl.config.noise_level * estimate_signal_level synthetic_trace) ^ 2
        * synthetic_trace.length
    else 1e-12
  let snr := 10 * Real.logb 10 (signal_power / max noise_power 1e-12)
  ({ synthetic_trace := synthetic_trace
     reflectivity := reflectivity_model.coefficients
     wavelet := wavelet.samples
     time := time
     stats :=
       { reflectivity_sparsity := reflectivity_model.sparsity
         wavelet_dominant_freq := wavelet.frequency
         output_snr := snr
         convolution_length := synthetic_trace.length } },
   { pl with rng_count := step2.2 })

/-- Embedding of `SeismicPipeline::run_forward_modelling`.  `none` means
the run never returns (the convolution hung); the source has no other
failure source, so every return is `Ok`.  Step 1 convolves reflectivity
and wavelet; `forward_steps` performs steps 2-5. -/
noncomputable def run_forward_modelling (fuel : ℕ) (rng : ℕ → ℝ)
    (pl : SeismicPipeline) (reflectivity_model : ReflectivityModel)
    (wavelet : RickerWavelet) :
    Option (ForwardModellingResults × SeismicPipeline) :=
  match convolve_fuel fuel reflectivity_model.coefficients wavelet.samples with
  | none => none
  | some trace0 => some (forward_steps rng pl reflectivity_model wavelet trace0)

/-- The iteration loop of `run_monte_carlo`: run the pipeline `n` times,
threading the state; any `?`-propagated failure (here: divergence)
aborts the loop. -/
noncomputable def run_mc_loop (fuel : ℕ) (rng : ℕ → ℝ)
    (reflectivity_model : ReflectivityModel) (wavelet : RickerWavelet) :
    ℕ → SeismicPipeline → Option (List ForwardModellingResults × SeismicPipeline)
  | 0, pl => some ([], pl)
  | n + 1, pl =>
      match run_forward_modelling fuel rng pl reflectivity_model wavelet with
      | none => none
      | some (r, pl1) =>
          match run_mc_loop fuel rng reflectivity_model wavelet n pl1 with
          | none => none
          | some (rs, pl2) => some (r :: rs, pl2)

/-- Embedding of `run_monte_carlo`: save `add_noise`, force it `true`,
run `n` realizations, restore the saved value after the loop.  (In the
source the restore sits after the loop, so a `?`-failure would skip it —
but no operation in the pipeline ever constructs an error, so every
return passes through the restore.) -/
noncomputable def run_monte_carlo (fuel : ℕ) (rng : ℕ → ℝ)
    (pl : SeismicPipeline) (reflectivity_model : ReflectivityModel)
    (wavelet : RickerWavelet) (num_realizations : ℕ) :
    Option (List ForwardModellingResults × SeismicPipeline) :=
  let original_noise_setting := pl.config.add_noise
  let pl1 : SeismicPipeline :=
    { pl with config := { pl.config with add_noise := true } }
  match run_mc_loop fuel rng reflectivity_model wavelet num_realizations pl1 with
  | none => none
  | some (results, pl2) =>
      some (results,
        { pl2 with config := { pl2.config with add_noise := original_noise_setting } })

/-- The low-pass behaviour described by the claim, written from its
words: window length `⌊sampleRate / (2·highFreqHz)⌋`; no-op unless
`1 < window < len/4`; otherwise sample `i` becomes the average of the
samples at indices `[i−half, i+half]` clamped to the trace bounds
(`lo = i−half` saturating at 0, `hi = min (i+half) (len−1)`, so the
window holds `hi+1−lo` samples), with `half = window/2` by integer
division.  The `len/4` bound is read, as in the code, with integer
division. -/
noncomputable def lowpass_spec (signal : List ℝ) (sampleRate highFreqHz : ℝ) :
    List ℝ :=
  let window : ℤ := ⌊sampleRate / (2 * highFreqHz)⌋
  if 1 < window ∧ window < ((signal.length / 4 : ℕ) : ℤ) then
    let half := window.toNat / 2
    (List.range signal.length).map fun i =>
      let lo := i - half
      let hi := min (i + half) (signal.length - 1)
      let count : ℕ := hi + 1 - lo
      ((signal.drop lo).take count).sum / count
  else signal

/-! ### Helper lemmas -/

/-- The loop never terminates while `power < n`, because the body does
not change `power`. -/
lemma next_power_of_2_loop_none (n : ℕ) :
    ∀ (fuel power : ℕ), power < n → next_power_of_2_loop n fuel power = none := by
  intro fuel
  induction fuel with
  | zero => intro power _; rfl
  | succ f ih =>
      intro power hp
      simp only [next_power_of_2_loop, if_pos hp]
      exact ih power hp

/-- For every `n ≥ 2` the embedded `next_power_of_2` runs out of any
amount of fuel: the source function diverges. -/
lemma next_power_of_2_fuel_diverges {n : ℕ} (hn : 2 ≤ n) (fuel : ℕ) :
    next_power_of_2_fuel fuel n = none := by
  have h1 : ¬ n ≤ 1 := by omega
  simp only [next_power_of_2_fuel, if_neg h1]
  exact next_power_of_2_loop_none n fuel 1 (by omega)

/-- Whenever the two inputs are nonempty and their lengths sum to at
least 3, `convolve` hangs inside `next_power_of_2`. -/
lemma convolve_fuel_diverges (fuel : ℕ) {a b : List ℝ}
    (ha : a ≠ []) (hb : b ≠ []) (hlen : 3 ≤ a.length + b.length) :
    convolve_fuel fuel a b = none := by
  have ha' : a.isEmpty = false := by simpa [List.isEmpty_iff] using ha
  have hb' : b.isEmpty = false := by simpa [List.isEmpty_iff] using hb
  have h2 : 2 ≤ a.length + b.length - 1 := by omega
  simp only [convolve_fuel, ha', hb', Bool.or_self, Bool.false_eq_true, if_false,
    next_power_of_2_fuel_diverges h2 fuel]

/-- Same divergence for `cross_correlate`. -/
lemma cross_correlate_fuel_diverges (fuel : ℕ) {a b : List ℝ}
    (ha : a ≠ []) (hb : b ≠ []) (hlen : 3 ≤ a.length + b.length) :
    cross_correlate_fuel fuel a b = none := by
  have ha' : a.isEmpty = false := by simpa [List.isEmpty_iff] using ha
  have hb' : b.isEmpty = false := by simpa [List.isEmpty_iff] using hb
  have h2 : 2 ≤ a.length + b.length - 1 := by omega
  simp only [cross_correlate_fuel, ha', hb', Bool.or_self, Bool.false_eq_true, if_false,
    next_power_of_2_fuel_diverges h2 fuel]


/-- A length-1 forward transform is the identity. -/
lemma dft_one (c : ℂ) : dft 1 [c] = [c] := by
  simp [dft, Finset.sum_range_one]
  rw [List.range_succ, List.range_zero]
  simp

/-- A length-1 inverse transform is the identity. -/
lemma idft_one (c : ℂ) : idft 1 [c] = [c] := by
  simp [idft, Finset.sum_range_one]
  rw [List.range_succ, List.range_zero]
  simp

/-- Preparing a single sample at FFT length 1 just lifts it to `ℂ`. -/
lemma prepare_fft_buffer_one (x : ℝ) : prepare_fft_buffer [x] 1 = [(x : ℂ)] := by
  simp [prepare_fft_buffer]

/-- On two single-sample signals the convolution terminates on any fuel
(FFT length 1) and returns the product. -/
lemma convolve_fuel_single (fuel : ℕ) (x y : ℝ) :
    convolve_fuel fuel [x] [y] = some [x * y] := by
  have hfft : next_power_of_2_fuel fuel 1 = some 1 := rfl
  simp [convolve_fuel, hfft, prepare_fft_buffer_one, dft_one, idft_one,
    ← Complex.ofReal_mul]


/-- If the convolution terminates, `run_forward_modelling` returns the
`forward_steps` of its output. -/
lemma run_forward_modelling_eq {fuel : ℕ} {rng : ℕ → ℝ} {pl : SeismicPipeline}
    {m : ReflectivityModel} {w : RickerWavelet} {trace0 : List ℝ}
    (hconv : convolve_fuel fuel m.coefficients w.samples = some trace0) :
    run_forward_modelling fuel rng pl m w = some (forward_steps rng pl m w trace0) := by
  rw [run_forward_modelling, hconv]

/-- `forward_steps` never touches the configuration; it only advances
the RNG counter. -/
lemma forward_steps_config (rng : ℕ → ℝ) (pl : SeismicPipeline)
    (m : ReflectivityModel) (w : RickerWavelet) (trace0 : List ℝ) :
    (forward_steps rng pl m w trace0).2.config = pl.config := rfl

/-- `run_forward_modelling` never changes the configuration. -/
lemma run_forward_modelling_config {fuel : ℕ} {rng : ℕ → ℝ} {pl : SeismicPipeline}
    {m : ReflectivityModel} {w : RickerWavelet} {r : ForwardModellingResults}
    {pl1 : SeismicPipeline}
    (h : run_forward_modelling fuel rng pl m w = some (r, pl1)) :
    pl1.config = pl.config := by
  unfold run_forward_modelling at h
  cases hc : convolve_fuel fuel m.coefficients w.samples with
  | none => rw [hc] at h; exact absurd h (by simp)
  | some t =>
      rw [hc] at h
      simp only [Option.some.injEq] at h
      have h2 : (forward_steps rng pl m w t).2 = pl1 := congrArg Prod.snd h
      rw [← h2]
      exact forward_steps_config rng pl m w t

/-- The Monte-Carlo loop never changes the configuration. -/
lemma run_mc_loop_config (fuel : ℕ) (rng : ℕ → ℝ) (m : ReflectivityModel)
    (w : RickerWavelet) :
    ∀ (n : ℕ) (pl : SeismicPipeline) (rs : List ForwardModellingResults)
      (pl2 : SeismicPipeline),
      run_mc_loop fuel rng m w n pl = some (rs, pl2) → pl2.config = pl.config := by
  intro n
  induction n with
  | zero =>
      intro pl rs pl2 h
      simp only [run_mc_loop, Option.some.injEq, Prod.mk.injEq] at h
      rw [← h.2]
  | succ k ih =>
      intro pl rs pl2 h
      unfold run_mc_loop at h
      cases h1 : run_forward_modelling fuel rng pl m w with
      | none => rw [h1] at h; exact absurd h (by simp)
      | some p =>
          obtain ⟨r1, pl1⟩ := p
          rw [h1] at h
          dsimp only at h
          cases h2 : run_mc_loop fuel rng m w k pl1 with
          | none => rw [h2] at h; exact absurd h (by simp)
          | some q =>
              obtain ⟨rs2, pl3⟩ := q
              rw [h2] at h
              simp only [Option.some.injEq, Prod.mk.injEq] at h
              calc pl2.config = pl3.config := by rw [h.2]
                _ = pl1.config := ih pl1 rs2 pl3 h2
                _ = pl.config := run_forward_modelling_config h1


/-- Unfolding of `run_monte_carlo`: force the flag, run the loop,
restore the flag. -/
lemma run_monte_carlo_eq (fuel : ℕ) (rng : ℕ → ℝ) (pl : SeismicPipeline)
    (m : ReflectivityModel) (w : RickerWavelet) (n : ℕ) :
    run_monte_carlo fuel rng pl m w n =
      match run_mc_loop fuel rng m w n
          { pl with config := { pl.config with add_noise := true } } with
      | none => none
      | some (results, pl2) =>
          some (results,
            { pl2 with config :=
                { pl2.config with add_noise := pl.config.add_noise } }) := rfl

end Seismic

/-- Claim C1: `next_power_of_2(n)` is claimed to return 1 for `n ≤ 1` and
otherwise the smallest power of two `≥ n`.  In fact, for every `n ≥ 2`
(here `n = 3`, on which the source test `test_next_power_of_2` expects
the answer 4) the function never returns: the loop body `power<=1;` is a
comparison with no effect, so `while power < n` never exits. -/
theorem C1_next_power_of_2_diverges :
    (∀ fuel, Seismic.next_power_of_2_fuel fuel 3 = none) ∧
      Seismic.next_power_of_2_fuel 0 1 = some 1 := by
  constructor
  · exact fun fuel => Seismic.next_power_of_2_fuel_diverges (by norm_num) fuel
  · rfl

/-- Claim C2: `convolve(a, b)` is claimed to match the direct O(n²)
reference convolution within 1e-9 relative error.  On the nonempty input
`a = [1,0,0]`, `b = [1,2,3]` (the source test `test_simple_convolution`,
which expects `[1,2,3,0,0]`), `convolve` never returns at all: it hangs
in `next_power_of_2(5)`.  The reference convolution does produce
`[1,2,3,0,0]` there. -/
theorem C2_convolve_diverges_from_reference :
    (∀ fuel, Seismic.convolve_fuel fuel [1, 0, 0] [1, 2, 3] = none) ∧
      Seismic.direct_convolve [1, 0, 0] [1, 2, 3] = [1, 2, 3, 0, 0] := by
  constructor
  · exact fun fuel =>
      Seismic.convolve_fuel_diverges fuel (by simp) (by simp) (by simp)
  · simp [Seismic.direct_convolve, Finset.sum_range_succ, List.range_succ]

/-- Claim C3: the results of `convolve(a, b)` and `cross_correlate(a, b)`
are claimed to have length `len(a)+len(b)−1` for nonempty inputs.  On
`a = [1,2]`, `b = [3]` both functions never return (they hang inside
`next_power_of_2(2)`), so no list of length 2 is ever produced; only the
empty-input path returns (with the empty list). -/
theorem C3_convolution_length_diverges :
    (∀ fuel, Seismic.convolve_fuel fuel [1, 2] [3] = none) ∧
      (∀ fuel, Seismic.cross_correlate_fuel fuel [1, 2] [3] = none) ∧
      (∀ fuel b, Seismic.convolve_fuel fuel [] b = some []) ∧
      (∀ fuel a, Seismic.cross_correlate_fuel fuel a [] = some []) := by
  refine ⟨fun fuel => ?_, fun fuel => ?_, fun fuel b => ?_, fun fuel a => ?_⟩
  · exact Seismic.convolve_fuel_diverges fuel (by simp) (by simp) (by simp)
  · exact Seismic.cross_correlate_fuel_diverges fuel (by simp) (by simp) (by simp)
  · simp [Seismic.convolve_fuel]
  · simp [Seismic.cross_correlate_fuel]

/-- Claim C6: `auto_correlate(a) == cross_correlate(a, a)` does hold — it
is literally the definition — but the claimed zero-lag maximum property
fails for every signal of length ≥ 2: on `a = [1,1]` (energy `2 ≠ 0`)
`cross_correlate(a, a)` never returns, so no maximum-magnitude sample
exists. -/
theorem C6_auto_correlate_diverges :
    (∀ fuel (s : List ℝ),
        Seismic.auto_correlate_fuel fuel s = Seismic.cross_correlate_fuel fuel s s) ∧
      ((([1, 1] : List ℝ).map fun x => x * x).sum ≠ 0) ∧
      (∀ fuel, Seismic.auto_correlate_fuel fuel [1, 1] = none) := by
  refine ⟨fun fuel s => rfl, by norm_num, fun fuel => ?_⟩
  exact Seismic.cross_correlate_fuel_diverges fuel (by simp) (by simp) (by simp)

/-- Claim C8: the time vector of a constructed `RickerWavelet` is claimed
to be symmetric around zero (`time[i] = −time[len−1−i]`).  It never is:
`time[i] = (i − length/2)·dt`, so for `frequency = 25`, `dt = 1/1000`,
`length = 2` the time vector is `[−1/1000, 0]` and
`time[0] = −1/1000 ≠ 0 = −time[1]`.  (The equal-length half of the claim
does hold; the repository test `test_ricker_symmetry` expects the
symmetry that fails here.) -/
theorem C8_time_vector_not_symmetric :
    (Seismic.RickerWavelet.new 25 (1 / 1000) 2).map Seismic.RickerWavelet.time
        = Except.ok [-(1 / 1000), 0] ∧
      (-(1 / 1000) : ℝ) ≠ -0 := by
  constructor
  · simp only [Seismic.RickerWavelet.new, if_neg (by norm_num : ¬(25 : ℝ) ≤ 0),
      if_neg (by norm_num : ¬(1 / 1000 : ℝ) ≤ 0), Except.map, List.range_succ]
    norm_num
  · norm_num

/-- Claim C10: `RickerWavelet::new(frequency, dt, length)` errors exactly
when `frequency ≤ 0` or `dt ≤ 0`; `length = 0` passes validation and
yields `Ok` with empty samples and time vectors.  (Note the repository
test `test_invalid_parameters` expects `length = 0` to be rejected; the
code performs no length check, and this claim describes the code.) -/
theorem C10_ricker_new_validation (frequency dt : ℝ) (length : ℕ) :
    ((∃ e, Seismic.RickerWavelet.new frequency dt length = Except.error e) ↔
        frequency ≤ 0 ∨ dt ≤ 0) ∧
      (length = 0 → ¬(frequency ≤ 0 ∨ dt ≤ 0) →
        Seismic.RickerWavelet.new frequency dt length
          = Except.ok ⟨frequency, dt, [], []⟩) := by
  constructor
  · constructor
    · rintro ⟨e, he⟩
      by_contra hv
      push_neg at hv
      simp only [Seismic.RickerWavelet.new, if_neg (not_le.mpr hv.1),
        if_neg (not_le.mpr hv.2)] at he
      exact Except.noConfusion he
    · intro hv
      rcases hv with hf | hd
      · exact ⟨"Frequency must be positive", by
          simp only [Seismic.RickerWavelet.new, if_pos hf]⟩
      · by_cases hf : frequency ≤ 0
        · exact ⟨"Frequency must be positive", by
            simp only [Seismic.RickerWavelet.new, if_pos hf]⟩
        · exact ⟨"Sample interval must be positive", by
            simp only [Seismic.RickerWavelet.new, if_neg hf, if_pos hd]⟩
  · intro hlen hv
    push_neg at hv
    subst hlen
    simp [Seismic.RickerWavelet.new, if_neg (not_le.mpr hv.1),
      if_neg (not_le.mpr hv.2), Seismic.generate_ricker]

/-- Witness for C10 at `frequency = 30`, `dt = 1/1000`, `length = 0`:
construction succeeds with empty samples and time vectors. -/
theorem C10_ricker_new_validation_witness :
    Seismic.RickerWavelet.new 30 (1 / 1000) 0 = Except.ok ⟨30, 1 / 1000, [], []⟩ :=
  (C10_ricker_new_validation 30 (1 / 1000) 0).2 rfl (by norm_num)

/-- Claim C7: the low-pass filter uses window length
`⌊sample_rate / (2·high_freq)⌋`, is a no-op unless
`1 < window < len(trace)/4`, and otherwise replaces each sample by the
average of the window `[i−half, i+half]` clamped to the trace bounds
(shrinking edge windows), with `half = window/2` by integer division;
the trace length is unchanged.  `apply_bandpass_filter` agrees with that
description (`lowpass_spec`) on every input, and preserves the length. -/
theorem C7_lowpass_filter_matches_spec (cfg : Seismic.PipelineConfig)
    (trace : List ℝ) :
    Seismic.apply_bandpass_filter cfg trace
        = Seismic.lowpass_spec trace cfg.sample_rate cfg.high_freq ∧
      (Seismic.apply_bandpass_filter cfg trace).length = trace.length := by
  have hcond : (1 < Seismic.bandpass_window_size cfg ∧
      Seismic.bandpass_window_size cfg < trace.length / 4) ↔
      (1 < ⌊cfg.sample_rate / (2 * cfg.high_freq)⌋ ∧
        ⌊cfg.sample_rate / (2 * cfg.high_freq)⌋ < ((trace.length / 4 : ℕ) : ℤ)) := by
    unfold Seismic.bandpass_window_size
    omega
  have hmain : Seismic.apply_bandpass_filter cfg trace
      = Seismic.lowpass_spec trace cfg.sample_rate cfg.high_freq := by
    by_cases h : 1 < ⌊cfg.sample_rate / (2 * cfg.high_freq)⌋ ∧
        ⌊cfg.sample_rate / (2 * cfg.high_freq)⌋ < ((trace.length / 4 : ℕ) : ℤ)
    · have hc := hcond.mpr h
      have hlen : 12 ≤ trace.length := by
        have := hc.1
        have := hc.2
        omega
      simp only [Seismic.apply_bandpass_filter, Seismic.lowpass_spec, if_pos hc, if_pos h,
        Seismic.apply_moving_average]
      apply List.map_congr_left
      intro i hi
      rw [List.mem_range] at hi
      have hmin : min (i + Seismic.bandpass_window_size cfg / 2 + 1) trace.length
          = min (i + Seismic.bandpass_window_size cfg / 2) (trace.length - 1) + 1 := by
        omega
      rw [hmin]
      rfl
    · have hc := (not_iff_not.mpr hcond).mpr h
      simp only [Seismic.apply_bandpass_filter, Seismic.lowpass_spec, if_neg hc, if_neg h]
  refine ⟨hmain, ?_⟩
  simp only [Seismic.apply_bandpass_filter]
  split
  · simp [Seismic.apply_moving_average]
  · rfl

/-- Claim C9: adding noise with `noise_level = 0` leaves every sample of
the signal unchanged (the noise amplitude `0 × RMS` vanishes), for every
trace, every other configuration field, and every random stream. -/
theorem C9_zero_noise_level_is_identity (an af : Bool) (lf hf sr : ℝ)
    (rng : ℕ → ℝ) (k : ℕ) (trace : List ℝ) :
    Seismic.add_noise_to_trace ⟨an, 0, af, lf, hf, sr⟩ rng k trace
      = (trace, k + trace.length) := by
  simp only [Seismic.add_noise_to_trace, zero_mul, mul_zero, zero_mul, add_zero,
    Prod.mk.injEq, and_true]
  exact List.enum_map_snd trace

/-- Claim C4: after `run_monte_carlo` returns, the add_noise flag equals
its value before the call, and the n iterations all execute with
add_noise forced to true.  In the source the restore sits after the loop
and a `?`-failure would skip it, but no operation in the pipeline ever
constructs an error value (the only `Result`s are `Ok`), so every return
passes through the restore and the failure clause of the claim is
vacuously satisfied.  A hung convolution never returns at all (`none`),
so no post-state exists on that path.  The second conjunct exhibits the
iteration loop running from the forced configuration (which, by
`run_mc_loop_config`, every iteration keeps: `add_noise` stays true
throughout). -/
theorem C4_monte_carlo_restores_noise_flag (fuel : ℕ) (rng : ℕ → ℝ)
    (pl : Seismic.SeismicPipeline) (m : Seismic.ReflectivityModel)
    (w : Seismic.RickerWavelet) (n : ℕ)
    (results : List Seismic.ForwardModellingResults)
    (plFinal : Seismic.SeismicPipeline)
    (h : Seismic.run_monte_carlo fuel rng pl m w n = some (results, plFinal)) :
    plFinal.config.add_noise = pl.config.add_noise ∧
      ∃ pl2, Seismic.run_mc_loop fuel rng m w n
            { pl with config := { pl.config with add_noise := true } }
          = some (results, pl2) ∧ pl2.config.add_noise = true := by
  rw [Seismic.run_monte_carlo_eq] at h
  cases h1 : Seismic.run_mc_loop fuel rng m w n
      { pl with config := { pl.config with add_noise := true } } with
  | none => rw [h1] at h; exact absurd h (by simp)
  | some q =>
      obtain ⟨rs2, pl2⟩ := q
      rw [h1] at h
      dsimp only at h
      simp only [Option.some.injEq, Prod.mk.injEq] at h
      obtain ⟨hrs, hpl⟩ := h
      constructor
      · rw [← hpl]
      · refine ⟨pl2, by rw [hrs], ?_⟩
        have hcfg := Seismic.run_mc_loop_config fuel rng m w n _ rs2 pl2 h1
        rw [hcfg]

/-- Witness for C4: a full Monte-Carlo run (one realization, one-sample
reflectivity and wavelet so that the convolution terminates, noise draw
`1/2`), starting from `add_noise = false`; afterwards the flag is
`false` again. -/
theorem C4_monte_carlo_restores_noise_flag_witness :
    (Seismic.run_monte_carlo 1 (fun _ => 1 / 2)
        ⟨⟨false, 1 / 100, false, 5, 100, 1000⟩, 0⟩
        ⟨[1], [0], [1], 1⟩ ⟨30, 1 / 1000, [1], [0]⟩ 1).elim False
      (fun p => p.2.config.add_noise = false) := by
  have hconv : Seismic.convolve_fuel 1
      (Seismic.ReflectivityModel.coefficients ⟨[1], [0], [1], 1⟩)
      (Seismic.RickerWavelet.samples ⟨30, 1 / 1000, [1], [0]⟩)
      = some [(1 : ℝ) * 1] :=
    Seismic.convolve_fuel_single 1 1 1
  have hfwd2 : Seismic.run_forward_modelling 1 (fun _ => 1 / 2)
      ⟨⟨true, 1 / 100, false, 5, 100, 1000⟩, 0⟩ ⟨[1], [0], [1], 1⟩
      ⟨30, 1 / 1000, [1], [0]⟩
      = some ((Seismic.forward_steps (fun _ => 1 / 2)
            ⟨⟨true, 1 / 100, false, 5, 100, 1000⟩, 0⟩ ⟨[1], [0], [1], 1⟩
            ⟨30, 1 / 1000, [1], [0]⟩ [(1 : ℝ) * 1]).1,
          ⟨⟨true, 1 / 100, false, 5, 100, 1000⟩, 1⟩) := by
    rw [Seismic.run_forward_modelling_eq hconv]
    rfl
  have hloop : Seismic.run_mc_loop 1 (fun _ => 1 / 2) ⟨[1], [0], [1], 1⟩
      ⟨30, 1 / 1000, [1], [0]⟩ 1 ⟨⟨true, 1 / 100, false, 5, 100, 1000⟩, 0⟩
      = some ([(Seismic.forward_steps (fun _ => 1 / 2)
            ⟨⟨true, 1 / 100, false, 5, 100, 1000⟩, 0⟩ ⟨[1], [0], [1], 1⟩
            ⟨30, 1 / 1000, [1], [0]⟩ [(1 : ℝ) * 1]).1],
          ⟨⟨true, 1 / 100, false, 5, 100, 1000⟩, 1⟩) := by
    unfold Seismic.run_mc_loop
    rw [hfwd2]
    rfl
  have hmc : Seismic.run_monte_carlo 1 (fun _ => 1 / 2)
      ⟨⟨false, 1 / 100, false, 5, 100, 1000⟩, 0⟩ ⟨[1], [0], [1], 1⟩
      ⟨30, 1 / 1000, [1], [0]⟩ 1
      = some ([(Seismic.forward_steps (fun _ => 1 / 2)
            ⟨⟨true, 1 / 100, false, 5, 100, 1000⟩, 0⟩ ⟨[1], [0], [1], 1⟩
            ⟨30, 1 / 1000, [1], [0]⟩ [(1 : ℝ) * 1]).1],
          ⟨⟨false, 1 / 100, false, 5, 100, 1000⟩, 1⟩) := by
    rw [Seismic.run_monte_carlo_eq]
    have h2 : Seismic.run_mc_loop 1 (fun _ => 1 / 2) ⟨[1], [0], [1], 1⟩
        ⟨30, 1 / 1000, [1], [0]⟩ 1
        { (⟨⟨false, 1 / 100, false, 5, 100, 1000⟩, 0⟩ : Seismic.SeismicPipeline) with
          config := { Seismic.SeismicPipeline.config
              ⟨⟨false, 1 / 100, false, 5, 100, 1000⟩, 0⟩ with add_noise := true } }
        = some ([(Seismic.forward_steps (fun _ => 1 / 2)
              ⟨⟨true, 1 / 100, false, 5, 100, 1000⟩, 0⟩ ⟨[1], [0], [1], 1⟩
              ⟨30, 1 / 1000, [1], [0]⟩ [(1 : ℝ) * 1]).1],
            ⟨⟨true, 1 / 100, false, 5, 100, 1000⟩, 1⟩) := hloop
    rw [h2]
  rw [hmc]
  exact (C4_monte_carlo_restores_noise_flag 1 (fun _ => 1 / 2)
    ⟨⟨false, 1 / 100, false, 5, 100, 1000⟩, 0⟩ ⟨[1], [0], [1], 1⟩
    ⟨30, 1 / 1000, [1], [0]⟩ 1 _ _ hmc).1

/-- Claim C5 (amended): `output_snr = 10·log10(signal_power/noise_power)`
with `signal_power = Σ trace²` over the final trace, where — when
`add_noise` is set — `noise_power = (noise_level · RMS(final trace))² × N`
is RE-MEASURED from the final (noisy, possibly filtered) trace rather
than taken from the amplitude the noise model actually injected
(`noise_level · RMS` of the pre-noise trace); otherwise `noise_power`
is the `1e-12` floor; `noise_power` is clamped to `≥ 1e-12` before
dividing. -/
theorem C5_snr_from_final_trace (fuel : ℕ) (rng : ℕ → ℝ)
    (pl : Seismic.SeismicPipeline) (m : Seismic.ReflectivityModel)
    (w : Seismic.RickerWavelet) (res : Seismic.ForwardModellingResults)
    (pl1 : Seismic.SeismicPipeline)
    (h : Seismic.run_forward_modelling fuel rng pl m w = some (res, pl1)) :
    res.stats.output_snr
      = 10 * Real.logb 10 ((res.synthetic_trace.map fun x => x * x).sum /
          max (if pl.config.add_noise
               then (pl.config.noise_level
                   * Real.sqrt ((res.synthetic_trace.map fun x => x * x).sum
                       / res.synthetic_trace.length)) ^ 2
                   * res.synthetic_trace.length
               else 1e-12) 1e-12) := by
  unfold Seismic.run_forward_modelling at h
  cases hc : Seismic.convolve_fuel fuel m.coefficients w.samples with
  | none => rw [hc] at h; exact absurd h (by simp)
  | some t =>
      rw [hc] at h
      simp only [Option.some.injEq] at h
      have hres : res = (Seismic.forward_steps rng pl m w t).1 :=
        (congrArg Prod.fst h).symm
      rw [hres]
      rfl

/-- Claim C5 counterexample.  Pipeline run: one-sample reflectivity `[1]`
and wavelet `[1]` (so the convolution terminates with trace `[1]`),
`add_noise = true`, `noise_level = 1/10`, no filter, noise draw `1`.
The noise model injects amplitude `noise_level · RMS([1]) = 1/10`,
final trace `[11/10]`, `signal_power = 121/100`, `N = 1`.
The code computes `output_snr = 10·log10(100)` — it re-measures the RMS
from the NOISY trace (`noise_power = (1/10 · 11/10)² = 121/10000`) —
while the claim prescribes the injected amplitude
(`noise_power = (1/10 · 1)² · 1`), giving `10·log10(121)`, a different
value. -/
theorem C5_snr_counterexample :
    (Seismic.run_forward_modelling 1 (fun _ => 1)
        ⟨⟨true, 1 / 10, false, 5, 100, 1000⟩, 0⟩ ⟨[1], [0], [1], 1⟩
        ⟨30, 1 / 1000, [1], [0]⟩).map (fun p => p.1.stats.output_snr)
      = some (10 * Real.logb 10 100) ∧
    10 * Real.logb 10 ((121 / 100) / max ((1 / 10 * 1) ^ 2 * 1) 1e-12)
      = 10 * Real.logb 10 121 ∧
    10 * Real.logb 10 100 ≠ 10 * Real.logb 10 121 := by
  have hconv : Seismic.convolve_fuel 1
      (Seismic.ReflectivityModel.coefficients ⟨[1], [0], [1], 1⟩)
      (Seismic.RickerWavelet.samples ⟨30, 1 / 1000, [1], [0]⟩)
      = some [(1 : ℝ) * 1] :=
    Seismic.convolve_fuel_single 1 1 1
  refine ⟨?_, ?_, ?_⟩
  · rw [Seismic.run_forward_modelling_eq hconv]
    have htr : Seismic.add_noise_to_trace ⟨true, 1 / 10, false, 5, 100, 1000⟩
        (fun _ => 1) 0 [(1 : ℝ) * 1] = ([11 / 10], 1) := by
      simp only [Seismic.add_noise_to_trace, Seismic.estimate_signal_level]
      norm_num [List.enum, Real.sqrt_one]
    have hsq : Real.sqrt (((11 / 10 : ℝ) * (11 / 10) + 0) / 1) = 11 / 10 := by
      rw [show ((11 / 10 : ℝ) * (11 / 10) + 0) / 1 = (11 / 10) ^ 2 by ring]
      exact Real.sqrt_sq (by norm_num)
    simp only [Option.map_some', Seismic.forward_steps, htr,
      Seismic.estimate_signal_level]
    norm_num [hsq]
    have h121 : Real.sqrt 121 = 11 := by
      rw [show (121 : ℝ) = 11 ^ 2 by norm_num]; exact Real.sqrt_sq (by norm_num)
    have h100 : Real.sqrt 100 = 10 := by
      rw [show (100 : ℝ) = 10 ^ 2 by norm_num]; exact Real.sqrt_sq (by norm_num)
    rw [h121, h100, show ((1 : ℝ) / 10 * (11 / 10)) ^ 2 = 121 / 10000 by norm_num,
      max_eq_left (by norm_num)]
    norm_num
  · rw [show ((121 / 100 : ℝ)) / max ((1 / 10 * 1) ^ 2 * 1) 1e-12 = 121 by
      rw [max_eq_left (by norm_num)]; norm_num]
  · intro he
    have hlt : Real.logb 10 100 < Real.logb 10 121 :=
      Real.logb_lt_logb (by norm_num) (by norm_num) (by norm_num)
    exact absurd (mul_left_cancel₀ (by norm_num : (10 : ℝ) ≠ 0) he) (ne_of_lt hlt)

/-- Witness for the amended C5 at a concrete noiseless run: the SNR
equals the formula with the 1e-12 noise floor. -/
theorem C5_snr_from_final_trace_witness :
    (Seismic.run_forward_modelling 1 (fun _ => 0)
        ⟨⟨false, 1 / 100, false, 5, 100, 1000⟩, 0⟩ ⟨[1], [0], [1], 1⟩
        ⟨30, 1 / 1000, [1], [0]⟩).elim False
      (fun p => p.1.stats.output_snr
        = 10 * Real.logb 10 ((p.1.synthetic_trace.map fun x => x * x).sum /
            max (if (false : Bool)
                 then ((1 : ℝ) / 100
                     * Real.sqrt ((p.1.synthetic_trace.map fun x => x * x).sum
                         / p.1.synthetic_trace.length)) ^ 2
                     * p.1.synthetic_trace.length
                 else 1e-12) 1e-12)) := by
  have hconv : Seismic.convolve_fuel 1
      (Seismic.ReflectivityModel.coefficients ⟨[1], [0], [1], 1⟩)
      (Seismic.RickerWavelet.samples ⟨30, 1 / 1000, [1], [0]⟩)
      = some [(1 : ℝ) * 1] :=
    Seismic.convolve_fuel_single 1 1 1
  have h : Seismic.run_forward_modelling 1 (fun _ => 0)
      ⟨⟨false, 1 / 100, false, 5, 100, 1000⟩, 0⟩ ⟨[1], [0], [1], 1⟩
      ⟨30, 1 / 1000, [1], [0]⟩
      = some (Seismic.forward_steps (fun _ => 0)
          ⟨⟨false, 1 / 100, false, 5, 100, 1000⟩, 0⟩ ⟨[1], [0], [1], 1⟩
          ⟨30, 1 / 1000, [1], [0]⟩ [(1 : ℝ) * 1]) :=
    Seismic.run_forward_modelling_eq hconv
  rw [h]
  exact C5_snr_from_final_trace 1 (fun _ => 0)
    ⟨⟨false, 1 / 100, false, 5, 100, 1000⟩, 0⟩ ⟨[1], [0], [1], 1⟩
    ⟨30, 1 / 1000, [1], [0]⟩
    (Seismic.forward_steps (fun _ => 0)
      ⟨⟨false, 1 / 100, false, 5, 100, 1000⟩, 0⟩ ⟨[1], [0], [1], 1⟩
      ⟨30, 1 / 1000, [1], [0]⟩ [(1 : ℝ) * 1]).1
    (Seismic.forward_steps (fun _ => 0)
      ⟨⟨false, 1 / 100, false, 5, 100, 1000⟩, 0⟩ ⟨[1], [0], [1], 1⟩
      ⟨30, 1 / 1000, [1], [0]⟩ [(1 : ℝ) * 1]).2 h
